import Mathlib

/-!
# Data model of `generated_code/classes.cpp`

The translation unit declares four classes, `User`, `Project`, `Task` and
`Comment`, with private data members and six member functions that are
declared but never defined.  Three views of the file are embedded here.

* The *declaration view*: every class as a record of its data members, its
  member-function declarations and its declared constructors, transcribed line
  by line (`classDecl`).  Claims about which members and methods exist are
  statements about this table.
* The *value view*: the value an object carries when it is built from its
  members and copied, as Lean types.  A data member held by value becomes a
  field, `std::vector<T>` becomes `List T`, `int` becomes `Int` (no arithmetic
  is performed on it anywhere), `std::string` becomes `String`.  `Task` holds
  `std::vector<Comment>` and `Comment` holds a `Task`, so the two form one
  mutual inductive type, whose values are finite trees.
* The *object view*: objects with identity.  A `std::vector<Comment>` owns a
  heap block of `Comment` objects, and a `Task` object records which block its
  `comments` member owns (`Store`).  The classes declare no special member
  function, so each has the implicit ones; the implicit move assignment of
  `Task` hands the block of the source to the destination (`moveAssign`).  In
  this view a `Task` object can sit inside the very block that its own
  `comments` member owns, which no finite tree describes.
-/

namespace CodeGeneration

/-! ## Declaration view -/

/-- The four classes of the file (forward-declared on lines 4 to 7). -/
inductive ClassName where
  | User
  | Project
  | Task
  | Comment
deriving DecidableEq, Repr

/-- The types written in the file: `int`, `std::string`, `void`, a class held
by value, and `std::vector` of a class. -/
inductive CppType where
  | int
  | string
  | void
  | cls (c : ClassName)
  | vec (c : ClassName)
deriving DecidableEq, Repr

/-- A data member: `type name;`. -/
structure DataMember where
  name : String
  type : CppType
deriving DecidableEq, Repr

/-- A member-function declaration: `ret name(params);`.  `body` is the list of
statements of its definition when the file gives one (in the class or outside
it), and `none` when the declaration ends in `;` and no definition follows. -/
structure Method where
  name : String
  ret : CppType
  params : List (String × CppType)
  body : Option (List String)
deriving DecidableEq, Repr

/-- A class definition: data members in declaration order, member functions in
declaration order, and the parameter lists of the constructors it declares. -/
structure ClassDecl where
  members : List DataMember
  methods : List Method
  constructors : List (List (String × CppType))
deriving DecidableEq, Repr

/-- The class definitions, lines 10 to 48 of `classes.cpp`. -/
def classDecl : ClassName → ClassDecl
  | .User =>
    { members := [⟨"id", .int⟩, ⟨"username", .string⟩, ⟨"email", .string⟩]
      methods := [⟨"create_task", .cls .Task,
                    [("title", .string), ("project", .cls .Project)], none⟩]
      constructors := [] }
  | .Project =>
    { members := [⟨"id", .int⟩, ⟨"name", .string⟩, ⟨"owner", .cls .User⟩,
                  ⟨"members", .vec .User⟩]
      methods := [⟨"add_member", .void, [("user", .cls .User)], none⟩,
                  ⟨"create_task", .cls .Task,
                    [("title", .string), ("creator", .cls .User)], none⟩]
      constructors := [] }
  | .Task =>
    { members := [⟨"id", .int⟩, ⟨"title", .string⟩, ⟨"description", .string⟩,
                  ⟨"status", .string⟩, ⟨"assignee", .cls .User⟩,
                  ⟨"project", .cls .Project⟩, ⟨"comments", .vec .Comment⟩]
      methods := [⟨"change_status", .void, [("new_status", .string)], none⟩,
                  ⟨"assign_to", .void, [("user", .cls .User)], none⟩]
      constructors := [] }
  | .Comment =>
    { members := [⟨"id", .int⟩, ⟨"content", .string⟩, ⟨"author", .cls .User⟩,
                  ⟨"task", .cls .Task⟩]
      methods := [⟨"edit", .void, [("new_content", .string)], none⟩]
      constructors := [] }

/-- All four classes, in declaration order. -/
def allClasses : List ClassName := [.User, .Project, .Task, .Comment]

/-- The class a type stores values of, if any: `B` for `B` and for
`std::vector<B>`. -/
def CppType.target : CppType → Option ClassName
  | .cls c => some c
  | .vec c => some c
  | _ => none

/-- The classes that the data members of `a` hold, by value or in a collection,
in declaration order. -/
def memberTargets (a : ClassName) : List ClassName :=
  (classDecl a).members.filterMap fun m => m.type.target

/-- Edge `a -> b` of the type graph: some data member of `a` has type `b` or a
collection of `b`. -/
def edge (a b : ClassName) : Prop :=
  ∃ m ∈ (classDecl a).members, m.type = .cls b ∨ m.type = .vec b

instance edgeDecidable (a b : ClassName) : Decidable (edge a b) :=
  inferInstanceAs
    (Decidable (∃ m ∈ (classDecl a).members, m.type = .cls b ∨ m.type = .vec b))

/-- Reachability through one or more edges. -/
def reaches (a b : ClassName) : Prop := Relation.TransGen edge a b

/-- The type graph is acyclic: no class reaches itself. -/
def acyclic : Prop := ∀ a : ClassName, ¬ reaches a a

/-- A simple cycle of the type graph, written as the list of its nodes in
order: the nodes are distinct, each has an edge to the next one, and the last
has an edge to the first.  A one-element list is a cycle when the node has an
edge to itself. -/
def isCycle (l : List ClassName) : Prop :=
  l ≠ [] ∧ l.Nodup ∧ ∀ p ∈ l.zip (l.tail ++ l.take 1), edge p.1 p.2

instance isCycleDecidable (l : List ClassName) : Decidable (isCycle l) :=
  inferInstanceAs
    (Decidable (l ≠ [] ∧ l.Nodup ∧ ∀ p ∈ l.zip (l.tail ++ l.take 1), edge p.1 p.2))

/-- Every declared member function, qualified by its class. -/
def declaredOperations : List (ClassName × String) :=
  allClasses.flatMap fun c => (classDecl c).methods.map fun m => (c, m.name)

/-! ## Value view -/

/-- A `User` object: lines 13 to 15. -/
structure User where
  id : Int
  username : String
  email : String
deriving DecidableEq, Repr

/-- A `Project` object: lines 22 to 25. -/
structure Project where
  id : Int
  name : String
  owner : User
  members : List User
deriving DecidableEq, Repr

mutual
/-- The value of a `Task`, lines 32 to 38, as a finite tree: the values of its
seven members, the `comments` vector as the list of the values of its
elements.  This is what building a task from its members and copying it
yield; which object a member is, and the states that move assignment reaches,
are the matter of `TaskObj` and `Store`. -/
inductive Task where
  | mk (id : Int) (title : String) (description : String) (status : String)
      (assignee : User) (project : Project) (comments : List Comment)
/-- The value of a `Comment`, lines 44 to 47, as a finite tree: the values of
its four members, the `task` member as the value of that task.  The object
with its identity is `CommentObj`. -/
inductive Comment where
  | mk (id : Int) (content : String) (author : User) (task : Task)
end

/-- Data member `id` of `Task`. -/
def Task.id : Task → Int
  | .mk i _ _ _ _ _ _ => i

/-- Data member `title` of `Task`. -/
def Task.title : Task → String
  | .mk _ s _ _ _ _ _ => s

/-- Data member `description` of `Task`. -/
def Task.description : Task → String
  | .mk _ _ s _ _ _ _ => s

/-- Data member `status` of `Task`. -/
def Task.status : Task → String
  | .mk _ _ _ s _ _ _ => s

/-- Data member `assignee` of `Task`. -/
def Task.assignee : Task → User
  | .mk _ _ _ _ u _ _ => u

/-- Data member `project` of `Task`. -/
def Task.project : Task → Project
  | .mk _ _ _ _ _ p _ => p

/-- Data member `comments` of `Task`. -/
def Task.comments : Task → List Comment
  | .mk _ _ _ _ _ _ cs => cs

/-- Data member `id` of `Comment`. -/
def Comment.id : Comment → Int
  | .mk i _ _ _ => i

/-- Data member `content` of `Comment`. -/
def Comment.content : Comment → String
  | .mk _ s _ _ => s

/-- Data member `author` of `Comment`. -/
def Comment.author : Comment → User
  | .mk _ _ u _ => u

/-- Data member `task` of `Comment`. -/
def Comment.task : Comment → Task
  | .mk _ _ _ t => t

/-- The components of a `User`, in declaration order. -/
def User.toTuple (u : User) : Int × String × String :=
  (u.id, u.username, u.email)

/-- The components of a `Task`, in declaration order. -/
def Task.toTuple (t : Task) :
    Int × String × String × String × User × Project × List Comment :=
  (t.id, t.title, t.description, t.status, t.assignee, t.project, t.comments)

/-- A `Task` object, lines 32 to 38.  The members other than `comments` are
held in the object itself.  The `comments` vector keeps its elements in a heap
block; `comments` is the number of the block the vector owns, `none` for a
vector that owns no block (an empty one). -/
structure TaskObj where
  id : Int
  title : String
  description : String
  status : String
  assignee : User
  project : Project
  comments : Option Nat
deriving DecidableEq, Repr

/-- A `Comment` object, lines 44 to 47.  Its `task` member is a `Task` object
held inside the comment. -/
structure CommentObj where
  id : Int
  content : String
  author : User
  task : TaskObj
deriving DecidableEq, Repr

/-- Where a `Task` object lives: it is the `n`-th `Task` variable, or it is the
`task` member of element `i` of heap block `b`. -/
inductive TaskLoc where
  | var (n : Nat)
  | elem (b : Nat) (i : Nat)
deriving DecidableEq, Repr

/-- The objects of a program state: the `Task` variables, and the heap blocks
by number, each the sequence of `Comment` objects it holds (`none` for a block
that has been released). -/
structure Store where
  vars : List TaskObj
  blocks : List (Option (List CommentObj))
deriving DecidableEq, Repr

/-- The elements of block `b`, when it is allocated. -/
def Store.block (σ : Store) (b : Nat) : Option (List CommentObj) :=
  match σ.blocks[b]? with
  | some (some cs) => some cs
  | _ => none

/-- The `Task` object at a location. -/
def Store.taskAt (σ : Store) : TaskLoc → Option TaskObj
  | .var n => σ.vars[n]?
  | .elem b i =>
    match σ.block b with
    | some cs => (cs[i]?).map CommentObj.task
    | none => none

mutual
/-- Build a `Task` object with the value `v`: the elements of its `comments`
are built in fresh blocks, one block for each non-empty vector.  Blocks are
numbered as they are completed, so the block of a vector gets its number after
the blocks of the vectors inside its elements. -/
def allocTask : Task → Store → TaskObj × Store
  | .mk i a b s u p cs, σ =>
    match allocComments cs σ with
    | ([], σ1) => (⟨i, a, b, s, u, p, none⟩, σ1)
    | (o :: os, σ1) =>
      (⟨i, a, b, s, u, p, some σ1.blocks.length⟩,
        { σ1 with blocks := σ1.blocks ++ [some (o :: os)] })
/-- Build the `Comment` objects with the values `cs`, in order. -/
def allocComments : List Comment → Store → List CommentObj × Store
  | [], σ => ([], σ)
  | .mk i s u t :: cs, σ =>
    match allocTask t σ with
    | (o, σ1) =>
      match allocComments cs σ1 with
      | (os, σ2) => (⟨i, s, u, o⟩ :: os, σ2)
end

/-- For the task `t`, the locations of `c.task` for the comments `c` in
`t.comments`: the `task` members of the elements of the block that the
`comments` member of `t` owns. -/
def commentTaskLocs (σ : Store) (t : TaskLoc) : List TaskLoc :=
  match σ.taskAt t with
  | some o =>
    match o.comments with
    | some b =>
      match σ.block b with
      | some cs => (List.range cs.length).map (TaskLoc.elem b)
      | none => []
    | none => []
  | none => []

/-- The task object at `l` is the `task` member of a comment in the `comments`
of the task object at `t`. -/
def storedIn (σ : Store) (l t : TaskLoc) : Prop := l ∈ commentTaskLocs σ t

instance storedInDecidable (σ : Store) (l t : TaskLoc) : Decidable (storedIn σ l t) :=
  inferInstanceAs (Decidable (l ∈ commentTaskLocs σ t))

/-- Every task held in a block owns, if any, a block of smaller number. -/
def ranked (σ : Store) : Prop :=
  ∀ b cs, σ.block b = some cs → ∀ c ∈ cs, ∀ b2, c.task.comments = some b2 → b2 < b

/-- A user. -/
def sampleUser : User := ⟨1, "alice", "alice@example.org"⟩

/-- A second user. -/
def otherUser : User := ⟨2, "bob", "not an address"⟩

/-- A project owned by `otherUser` with no members. -/
def emptyProject : Project := ⟨1, "site", otherUser, []⟩

/-- A task without comments, assigned to `sampleUser` in `emptyProject`. -/
def bareTask : Task := .mk 1 "write" "" "open" sampleUser emptyProject []

/-- A comment whose `task` member is `bareTask`. -/
def sampleComment : Comment := .mk 1 "first" otherUser bareTask

/-- `User` has no outgoing edge. -/
theorem not_edge_user (b : ClassName) : ¬ edge .User b := by
  cases b <;> decide

/-- The only edge out of `Project` goes to `User`. -/
theorem edge_project_eq (b : ClassName) (h : edge .Project b) : b = .User := by
  cases b <;> first | rfl | exact absurd h (by decide)

/-- Nothing is reachable from `User`. -/
theorem not_reaches_user (b : ClassName) : ¬ reaches .User b := by
  intro h
  obtain ⟨m, hm, -⟩ := Relation.TransGen.head'_iff.mp h
  exact not_edge_user m hm

/-- Only `User` is reachable from `Project`. -/
theorem reaches_project_eq (b : ClassName) (h : reaches .Project b) : b = .User := by
  induction h with
  | single h => exact edge_project_eq _ h
  | tail _ h ih => subst ih; exact absurd h (not_edge_user _)

/-- A task is rebuilt from its seven members. -/
theorem Task.mk_members (t : Task) :
    Task.mk t.id t.title t.description t.status t.assignee t.project t.comments = t := by
  cases t; rfl

/-- A list of distinct classes has at most four elements. -/
theorem nodup_length_le (l : List ClassName) (h : l.Nodup) : l.length ≤ 4 := by
  have hs : l ⊆ allClasses := by
    intro a _
    cases a <;> decide
  exact (List.subperm_of_subset h hs).length_le

/-- The simple cycles of the type graph are `Task -> Comment -> Task` and the
same cycle written from `Comment`. -/
theorem isCycle_iff (l : List ClassName) :
    isCycle l ↔ l = [.Task, .Comment] ∨ l = [.Comment, .Task] := by
  constructor
  · intro h
    have hlen := nodup_length_le l h.2.1
    match l, h, hlen with
    | [], h, _ => exact absurd rfl h.1
    | [a], h, _ => revert h; cases a <;> decide
    | [a, b], h, _ => revert h; cases a <;> cases b <;> decide
    | [a, b, c], h, _ => revert h; cases a <;> cases b <;> cases c <;> decide
    | [a, b, c, d], h, _ =>
      revert h; cases a <;> cases b <;> cases c <;> cases d <;> decide
    | _ :: _ :: _ :: _ :: _ :: _, _, hlen => simp at hlen
  · rintro (rfl | rfl) <;> decide

/-- Block lookup in terms of the list of blocks. -/
theorem block_eq_some_iff {σ : Store} {b : Nat} {cs : List CommentObj} :
    σ.block b = some cs ↔ σ.blocks[b]? = some (some cs) := by
  unfold Store.block
  constructor
  · intro h
    split at h
    · rename_i cs2 heq
      rw [heq]; simp at h; rw [h]
    · simp at h
  · intro h
    rw [h]

/-- A new block whose tasks own earlier blocks keeps the store ranked. -/
theorem ranked_push {σ : Store} {cs : List CommentObj} (h : ranked σ)
    (hcs : ∀ c ∈ cs, ∀ b2, c.task.comments = some b2 → b2 < σ.blocks.length) :
    ranked { σ with blocks := σ.blocks ++ [some cs] } := by
  intro b cs2 hb c hc b2 hb2
  rw [block_eq_some_iff] at hb
  simp only at hb
  by_cases hlt : b < σ.blocks.length
  · rw [List.getElem?_append_left hlt] at hb
    exact h b cs2 (block_eq_some_iff.mpr hb) c hc b2 hb2
  · have hge : σ.blocks.length ≤ b := Nat.le_of_not_lt hlt
    rw [List.getElem?_append_right hge] at hb
    have hb0 : b - σ.blocks.length = 0 := by
      by_contra hne
      rw [List.getElem?_eq_none (by simp only [List.length_singleton]; omega)] at hb
      simp at hb
    rw [hb0] at hb
    simp only [List.getElem?_cons_zero, Option.some.injEq] at hb
    subst hb
    have hlt2 := hcs c hc b2 hb2
    omega

mutual
/-- Building a task keeps the store ranked, leaves the variables alone, and
the block the new task owns exists. -/
theorem allocTask_ranked : ∀ (v : Task) (σ : Store), ranked σ →
    ranked (allocTask v σ).2 ∧ σ.blocks.length ≤ (allocTask v σ).2.blocks.length ∧
      (allocTask v σ).2.vars = σ.vars ∧
      ∀ b, (allocTask v σ).1.comments = some b → b < (allocTask v σ).2.blocks.length
  | .mk i a b s u p cs, σ, h => by
    obtain ⟨h1, h2, h3, h4⟩ := allocComments_ranked cs σ h
    rw [allocTask]
    generalize allocComments cs σ = r at h1 h2 h3 h4
    obtain ⟨os, σ1⟩ := r
    cases os with
    | nil =>
      refine ⟨h1, h2, h3, ?_⟩
      intro b hb
      simp at hb
    | cons o os =>
      refine ⟨ranked_push h1 h4, ?_, h3, ?_⟩
      · simp only [List.length_append, List.length_singleton]
        simp only at h2
        omega
      · intro b hb
        simp only [Option.some.injEq] at hb
        simp only [List.length_append, List.length_singleton]
        omega
/-- Building a sequence of comments keeps the store ranked, leaves the
variables alone, and the blocks their tasks own exist. -/
theorem allocComments_ranked : ∀ (cs : List Comment) (σ : Store), ranked σ →
    ranked (allocComments cs σ).2 ∧
      σ.blocks.length ≤ (allocComments cs σ).2.blocks.length ∧
      (allocComments cs σ).2.vars = σ.vars ∧
      ∀ c ∈ (allocComments cs σ).1, ∀ b, c.task.comments = some b →
        b < (allocComments cs σ).2.blocks.length
  | [], σ, h => by
    rw [allocComments]
    exact ⟨h, le_refl _, rfl, fun c hc => absurd hc (List.not_mem_nil c)⟩
  | .mk i s u t :: cs, σ, h => by
    obtain ⟨h1, h2, h3, h4⟩ := allocTask_ranked t σ h
    rw [allocComments]
    generalize allocTask t σ = r at h1 h2 h3 h4
    obtain ⟨o, σ1⟩ := r
    obtain ⟨k1, k2, k3, k4⟩ := allocComments_ranked cs σ1 h1
    simp only
    generalize allocComments cs σ1 = r2 at k1 k2 k3 k4
    obtain ⟨os, σ2⟩ := r2
    simp only at *
    refine ⟨k1, le_trans h2 k2, k3.trans h3, ?_⟩
    intro c hc b hb
    rcases List.mem_cons.mp hc with rfl | hc
    · have hlt := h4 b hb
      simp only at hlt
      omega
    · exact k4 c hc b hb
end

/-- Claim C1, as stated, fails: the type graph is not acyclic.  `Task` has the
data member `std::vector<Comment> comments` (edge `Task -> Comment`) and
`Comment` has the data member `Task task` (edge `Comment -> Task`), so `Task`
reaches itself in two steps. -/
theorem type_graph_has_cycle :
    edge .Task .Comment ∧ edge .Comment .Task ∧ reaches .Task .Task ∧ ¬ acyclic := by
  have h1 : edge .Task .Comment := by decide
  have h2 : edge .Comment .Task := by decide
  have h3 : reaches .Task .Task := Relation.TransGen.tail (Relation.TransGen.single h1) h2
  exact ⟨h1, h2, h3, fun h => h .Task h3⟩

/-- Claim C1, amended: the type graph has exactly one cycle, `Task -> Comment
-> Task`.  A class reaches itself through one or more edges if and only if it
is `Task` or `Comment`, so `User` and `Project` lie on no cycle; neither
`Task` nor `Comment` has an edge to itself; and the simple cycles of the graph
are the node lists `[Task, Comment]` and `[Comment, Task]`, the one cycle
written from either of its nodes. -/
theorem type_graph_single_cycle :
    (∀ a : ClassName, reaches a a ↔ a = .Task ∨ a = .Comment) ∧
      ¬ edge .Task .Task ∧ ¬ edge .Comment .Comment ∧
      ∀ l : List ClassName, isCycle l ↔ l = [.Task, .Comment] ∨ l = [.Comment, .Task] := by
  have tc : edge .Task .Comment := by decide
  have ct : edge .Comment .Task := by decide
  refine ⟨?_, by decide, by decide, isCycle_iff⟩
  intro a
  constructor
  · intro h
    cases a with
    | User => exact absurd h (not_reaches_user _)
    | Project => exact absurd (reaches_project_eq _ h) (by decide)
    | Task => exact Or.inl rfl
    | Comment => exact Or.inr rfl
  · rintro (rfl | rfl)
    · exact Relation.TransGen.tail (Relation.TransGen.single tc) ct
    · exact Relation.TransGen.tail (Relation.TransGen.single ct) tc

/-! ## Absence of invariants -/

/-- Claim C2: nothing ties a task's assignee to the members of its project.
Some `Task` value has an assignee that is not among its project's members, and
this is so for every task whose project has an empty member list. -/
theorem assignee_need_not_be_member :
    (∃ t : Task, t.assignee ∉ t.project.members) ∧
      ∀ t : Task, t.project.members = [] → t.assignee ∉ t.project.members := by
  have h : ∀ t : Task, t.project.members = [] → t.assignee ∉ t.project.members := by
    intro t ht hmem
    rw [ht] at hmem
    exact List.not_mem_nil _ hmem
  exact ⟨⟨bareTask, h bareTask rfl⟩, h⟩

/-- Claim C2 at `bareTask`: its project `emptyProject` has no members, and its
assignee `sampleUser` is not one of them. -/
theorem assignee_need_not_be_member_witness :
    bareTask.project.members = [] ∧ bareTask.assignee = sampleUser ∧
      bareTask.assignee ∉ bareTask.project.members :=
  ⟨rfl, rfl, assignee_need_not_be_member.2 bareTask rfl⟩

/-- Claim C3: string members are unconstrained.  Every string is the `status`
of some `Task` and the `email` of some `User`. -/
theorem status_and_email_unconstrained (s : String) :
    (∃ t : Task, t.status = s) ∧ (∃ u : User, u.email = s) :=
  ⟨⟨.mk 0 "" "" s sampleUser emptyProject [], rfl⟩, ⟨⟨0, "", s⟩, rfl⟩⟩

/-! ## Shape of the values -/

/-- Claim C4: a `Task` is exactly its seven components.  The class declares
seven data members of types `int`, three times `std::string`, `User`,
`Project` and `std::vector<Comment>`; the map from a task to the tuple of
their values is a bijection; and two tasks are equal if and only if they agree
on all seven. -/
theorem task_is_seven_tuple :
    (classDecl .Task).members.map (fun m => m.type) =
        [.int, .string, .string, .string, .cls .User, .cls .Project, .vec .Comment] ∧
      Function.Bijective Task.toTuple ∧
      ∀ t t2 : Task, t = t2 ↔
        (t.id = t2.id ∧ t.title = t2.title ∧ t.description = t2.description ∧
          t.status = t2.status ∧ t.assignee = t2.assignee ∧ t.project = t2.project ∧
          t.comments = t2.comments) := by
  refine ⟨rfl, ⟨?_, ?_⟩, ?_⟩
  · intro t t2 h
    simp only [Task.toTuple, Prod.mk.injEq] at h
    obtain ⟨h1, h2, h3, h4, h5, h6, h7⟩ := h
    rw [← Task.mk_members t, ← Task.mk_members t2, h1, h2, h3, h4, h5, h6, h7]
  · rintro ⟨i, a, b, s, u, p, cs⟩
    exact ⟨.mk i a b s u p cs, rfl⟩
  · intro t t2
    constructor
    · rintro rfl
      exact ⟨rfl, rfl, rfl, rfl, rfl, rfl, rfl⟩
    · rintro ⟨h1, h2, h3, h4, h5, h6, h7⟩
      rw [← Task.mk_members t, ← Task.mk_members t2, h1, h2, h3, h4, h5, h6, h7]

/-- Claim C5: `User` has no outward relationship.  Its data members are an
`int` and two `std::string`s, none of them a class or a collection of a class,
so `User` has no edge to any class; and the map from a user to the triple of
its member values is a bijection onto `Int × String × String`, a type in which
no `Project`, `Task` or `Comment` occurs. -/
theorem user_is_triple_without_relationship :
    (classDecl .User).members.map (fun m => m.type) = [.int, .string, .string] ∧
      memberTargets .User = [] ∧
      (∀ b : ClassName, ¬ edge .User b) ∧
      Function.Bijective User.toTuple := by
  refine ⟨rfl, rfl, not_edge_user, ?_, ?_⟩
  · rintro ⟨i, n, e⟩ ⟨i2, n2, e2⟩ h
    simp only [User.toTuple, Prod.mk.injEq] at h
    obtain ⟨h1, h2, h3⟩ := h
    rw [h1, h2, h3]
  · rintro ⟨i, n, e⟩
    exact ⟨⟨i, n, e⟩, rfl⟩

/-! ## Declared operations -/

/-- Claim C6: the declared operations are exactly `User::create_task`,
`Project::add_member`, `Project::create_task`, `Task::change_status`,
`Task::assign_to` and `Comment::edit`; none of them has a body, so the file
gives none of them a result or an effect; and no class declares a
constructor. -/
theorem six_operations_without_body :
    declaredOperations =
        [(.User, "create_task"), (.Project, "add_member"), (.Project, "create_task"),
         (.Task, "change_status"), (.Task, "assign_to"), (.Comment, "edit")] ∧
      (∀ c : ClassName, ∀ m ∈ (classDecl c).methods, m.body = none) ∧
      ∀ c : ClassName, (classDecl c).constructors = [] := by
  refine ⟨rfl, ?_, ?_⟩
  · intro c
    cases c <;> decide
  · intro c
    cases c <;> rfl

/-! ## Containment -/

/-- Claim C8: all four types are inhabited.  There is a `Task` with an empty
`comments` sequence and a `Comment` whose `task` is that task, and there are a
`User` and a `Project`. -/
theorem all_types_inhabited :
    (∃ t : Task, t.comments = [] ∧ ∃ c : Comment, c.task = t) ∧
      Nonempty User ∧ Nonempty Project :=
  ⟨⟨bareTask, rfl, sampleComment, rfl⟩, ⟨sampleUser⟩, ⟨emptyProject⟩⟩

end CodeGeneration
